import Mathlib

/-!
Verification development for a double-inverted-pendulum-on-cart MPC codebase.

The embedding works over `ℚ` (exact arithmetic in place of IEEE floats) and
models three source units:

* `pendulum.py` — `DoubleInvertedPendulumCart`: physical parameters, the
  3×3 effective mass matrix `M0`, its inverse, the gravity-gradient matrix
  `dh_dtheta`, the input-distribution column `F`, and the assembled
  continuous-time state-space pair `(A, B)`.
* `mpc.py` — `LMPC`: discretized matrices, horizon, cost weights, optional
  box bounds, mutable reference; `solve_mpc`, `set_reference`, `simulate`.
  The external convex-QP solver (cvxpy/OSQP) is a black box: each call is
  parameterised by a `SolverOutcome` (status string plus the solver's
  variable assignments), and solver-contract properties appear as explicit
  hypotheses of the theorems.
* `main.py` — the first-order discretization `A_d = I + A·dt`, `B_d = B·dt`.
-/

set_option maxHeartbeats 1000000

/-! ### Dynamics model (`pendulum.py`) -/

/-- Physical parameters of `DoubleInvertedPendulumCart.__init__`. -/
structure PendulumParams where
  m0 : ℚ
  m1 : ℚ
  m2 : ℚ
  L1 : ℚ
  L2 : ℚ
  g : ℚ

/-- `self.l1 = L1 / 2` -/
def PendulumParams.l1 (p : PendulumParams) : ℚ := p.L1 / 2

/-- `self.l2 = L2 / 2` -/
def PendulumParams.l2 (p : PendulumParams) : ℚ := p.L2 / 2

/-- `self.I1 = (1/12) * m1 * L1**2` -/
def PendulumParams.I1 (p : PendulumParams) : ℚ := (1 / 12) * p.m1 * p.L1 ^ 2

/-- `self.I2 = (1/12) * m2 * L2**2` -/
def PendulumParams.I2 (p : PendulumParams) : ℚ := (1 / 12) * p.m2 * p.L2 ^ 2

/-- `M11 = m0 + m1 + m2` -/
def PendulumParams.M11 (p : PendulumParams) : ℚ := p.m0 + p.m1 + p.m2

/-- `M12 = m1*l1 + m2*L1` -/
def PendulumParams.M12 (p : PendulumParams) : ℚ := p.m1 * p.l1 + p.m2 * p.L1

/-- `M13 = m2*l2` -/
def PendulumParams.M13 (p : PendulumParams) : ℚ := p.m2 * p.l2

/-- `M22 = m1*l1**2 + m2*L1**2 + I1` -/
def PendulumParams.M22 (p : PendulumParams) : ℚ := p.m1 * p.l1 ^ 2 + p.m2 * p.L1 ^ 2 + p.I1

/-- `M23 = m2*L1*l2` -/
def PendulumParams.M23 (p : PendulumParams) : ℚ := p.m2 * p.L1 * p.l2

/-- `M33 = m2*l2**2 + I2` -/
def PendulumParams.M33 (p : PendulumParams) : ℚ := p.m2 * p.l2 ^ 2 + p.I2

/-- `self.M0 = np.array([[M11,M12,M13],[M12,M22,M23],[M13,M23,M33]])` -/
def PendulumParams.M0 (p : PendulumParams) : Matrix (Fin 3) (Fin 3) ℚ :=
  !![p.M11, p.M12, p.M13;
     p.M12, p.M22, p.M23;
     p.M13, p.M23, p.M33]

/-- Determinant of a 3×3 matrix, written out by cofactor expansion along the
first row (the quantity whose non-vanishing makes `np.linalg.inv` succeed). -/
def det3 (M : Matrix (Fin 3) (Fin 3) ℚ) : ℚ :=
  M 0 0 * (M 1 1 * M 2 2 - M 1 2 * M 2 1)
  - M 0 1 * (M 1 0 * M 2 2 - M 1 2 * M 2 0)
  + M 0 2 * (M 1 0 * M 2 1 - M 1 1 * M 2 0)

/-- Exact 3×3 matrix inverse (adjugate over determinant), the mathematical
function computed by `np.linalg.inv` on a nonsingular 3×3 input. -/
def inv3 (M : Matrix (Fin 3) (Fin 3) ℚ) : Matrix (Fin 3) (Fin 3) ℚ :=
  (det3 M)⁻¹ •
    !![M 1 1 * M 2 2 - M 1 2 * M 2 1, -(M 0 1 * M 2 2 - M 0 2 * M 2 1),
         M 0 1 * M 1 2 - M 0 2 * M 1 1;
       -(M 1 0 * M 2 2 - M 1 2 * M 2 0), M 0 0 * M 2 2 - M 0 2 * M 2 0,
         -(M 0 0 * M 1 2 - M 0 2 * M 1 0);
       M 1 0 * M 2 1 - M 1 1 * M 2 0, -(M 0 0 * M 2 1 - M 0 1 * M 2 0),
         M 0 0 * M 1 1 - M 0 1 * M 1 0]

/-- `self.M0_inv = np.linalg.inv(self.M0)` -/
def PendulumParams.M0_inv (p : PendulumParams) : Matrix (Fin 3) (Fin 3) ℚ := inv3 p.M0

/-- `self.dh_dtheta = np.array([[0,0,0],[0,(m1*l1+m2*L1)*g,0],[0,0,m2*l2*g]])` -/
def PendulumParams.dh_dtheta (p : PendulumParams) : Matrix (Fin 3) (Fin 3) ℚ :=
  !![0, 0, 0;
     0, (p.m1 * p.l1 + p.m2 * p.L1) * p.g, 0;
     0, 0, p.m2 * p.l2 * p.g]

/-- `self.F = np.array([[1],[0],[0]])` -/
def PendulumParams.F (p : PendulumParams) : Matrix (Fin 3) (Fin 1) ℚ := !![1; 0; 0]

/-- `A21 = -self.M0_inv @ self.dh_dtheta` -/
def PendulumParams.A21 (p : PendulumParams) : Matrix (Fin 3) (Fin 3) ℚ :=
  -p.M0_inv * p.dh_dtheta

/-- `B21 = self.M0_inv @ self.F` -/
def PendulumParams.B21 (p : PendulumParams) : Matrix (Fin 3) (Fin 1) ℚ :=
  p.M0_inv * p.F

/-- The matrix produced by `self.A = np.zeros((6,6))` followed by
`A[0,3] = A[1,4] = A[2,5] = 1` and `A[3:6, 0:3] = A21`: rows 0–2 carry the
kinematic identity entries, rows 3–5 carry the `A21` block in columns 0–2,
everything else stays at its initial zero. -/
def PendulumParams.A (p : PendulumParams) : Matrix (Fin 6) (Fin 6) ℚ :=
  !![0, 0, 0, 1, 0, 0;
     0, 0, 0, 0, 1, 0;
     0, 0, 0, 0, 0, 1;
     p.A21 0 0, p.A21 0 1, p.A21 0 2, 0, 0, 0;
     p.A21 1 0, p.A21 1 1, p.A21 1 2, 0, 0, 0;
     p.A21 2 0, p.A21 2 1, p.A21 2 2, 0, 0, 0]

/-- The column produced by `self.B = np.zeros((6,1))` followed by
`B[3:6, 0] = B21.flatten()`. -/
def PendulumParams.B (p : PendulumParams) : Matrix (Fin 6) (Fin 1) ℚ :=
  !![0; 0; 0; p.B21 0 0; p.B21 1 0; p.B21 2 0]

/-- `get_linearized_system` returns the pair `(self.A, self.B)`. -/
def PendulumParams.get_linearized_system (p : PendulumParams) :
    Matrix (Fin 6) (Fin 6) ℚ × Matrix (Fin 6) (Fin 1) ℚ := (p.A, p.B)

/-! ### Spec-side closed forms (for the refinement claim C1)

These definitions follow the words of the specification, not the source:
the symmetric mass matrix from its listed entries, the diagonal
gravity-gradient matrix, and the entrywise description of `A` and `B`. -/

/-- Spec's words: the symmetric 3×3 matrix with `M11 = m0+m1+m2`,
`M12 = m1·l1+m2·L1`, `M13 = m2·l2`, `M22 = m1·l1²+m2·L1²+I1`,
`M23 = m2·L1·l2`, `M33 = m2·l2²+I2`. -/
def M0_spec (p : PendulumParams) : Matrix (Fin 3) (Fin 3) ℚ :=
  !![p.m0 + p.m1 + p.m2, p.m1 * p.l1 + p.m2 * p.L1, p.m2 * p.l2;
     p.m1 * p.l1 + p.m2 * p.L1, p.m1 * p.l1 ^ 2 + p.m2 * p.L1 ^ 2 + p.I1, p.m2 * p.L1 * p.l2;
     p.m2 * p.l2, p.m2 * p.L1 * p.l2, p.m2 * p.l2 ^ 2 + p.I2]

/-- Spec's words: the diagonal gravity-gradient matrix with entries
`0`, `(m1·l1+m2·L1)·g`, `m2·l2·g`. -/
def G_spec (p : PendulumParams) : Matrix (Fin 3) (Fin 3) ℚ :=
  Matrix.diagonal ![0, (p.m1 * p.l1 + p.m2 * p.L1) * p.g, p.m2 * p.l2 * p.g]

/-- Spec's words: 6×6 `A` with `A[0,3]=A[1,4]=A[2,5]=1` and all other
entries of rows 0–2 zero; `A[3:6,0:3]` the negative of `M0⁻¹` times the
gravity-gradient matrix; all other entries zero. -/
def A_spec (p : PendulumParams) : Matrix (Fin 6) (Fin 6) ℚ :=
  Matrix.of fun i j =>
    if h3 : i.val < 3 then (if j.val = i.val + 3 then 1 else 0)
    else if hj : j.val < 3 then
      (-(inv3 (M0_spec p) * G_spec p)) ⟨i.val - 3, by omega⟩ ⟨j.val, hj⟩
    else 0

/-- Spec's words: 6×1 `B` with rows 0–2 zero and `B[3:6,0]` equal to
`M0⁻¹` applied to the input-distribution vector `(1,0,0)ᵗ`. -/
def B_spec (p : PendulumParams) : Matrix (Fin 6) (Fin 1) ℚ :=
  Matrix.of fun i _ =>
    if h3 : i.val < 3 then 0
    else (inv3 (M0_spec p)).mulVec ![1, 0, 0] ⟨i.val - 3, by omega⟩

/-! ### Discretization (`main.py`) -/

/-- `A_d = np.eye(n) + A * dt`, `B_d = B * dt` (module-level lines of
`main.py`, stated for a general continuous pair). -/
def discretize {k l : ℕ} (A : Matrix (Fin k) (Fin k) ℚ) (B : Matrix (Fin k) (Fin l) ℚ)
    (dt : ℚ) : Matrix (Fin k) (Fin k) ℚ × Matrix (Fin k) (Fin l) ℚ :=
  ((1 : Matrix (Fin k) (Fin k) ℚ) + dt • A, dt • B)

/-! ### MPC controller (`mpc.py`) -/

/-- The state of an `LMPC` instance: discretized matrices, horizon, cost
weights, optional box bounds, and the mutable reference pair. The state and
input dimensions `n = A.shape[0]` and `m = B.shape[1]` are type indices. -/
structure LMPC (n m : ℕ) where
  A : Matrix (Fin n) (Fin n) ℚ
  B : Matrix (Fin n) (Fin m) ℚ
  N : ℕ
  Q : Matrix (Fin n) (Fin n) ℚ
  R : Matrix (Fin m) (Fin m) ℚ
  Qn : Matrix (Fin n) (Fin n) ℚ
  x_min : Option (Fin n → ℚ)
  x_max : Option (Fin n → ℚ)
  u_min : Option (Fin m → ℚ)
  u_max : Option (Fin m → ℚ)
  x_ref : Fin n → ℚ
  u_ref : Fin m → ℚ

variable {n m : ℕ}

/-- `LMPC.__init__`: `Qn = Qn if Qn is not None else Q`, and the reference
starts at `x_ref = np.zeros(n)`, `u_ref = np.zeros(m)`. -/
def LMPC.init (A : Matrix (Fin n) (Fin n) ℚ) (B : Matrix (Fin n) (Fin m) ℚ) (N : ℕ)
    (Q : Matrix (Fin n) (Fin n) ℚ) (R : Matrix (Fin m) (Fin m) ℚ)
    (Qn : Option (Matrix (Fin n) (Fin n) ℚ))
    (x_min x_max : Option (Fin n → ℚ)) (u_min u_max : Option (Fin m → ℚ)) : LMPC n m :=
  { A := A, B := B, N := N, Q := Q, R := R, Qn := Qn.getD Q,
    x_min := x_min, x_max := x_max, u_min := u_min, u_max := u_max,
    x_ref := fun _ => 0, u_ref := fun _ => 0 }

/-- `set_reference`: replace `x_ref`, reset `u_ref` to `np.zeros(m)`. -/
def LMPC.set_reference (c : LMPC n m) (x_ref : Fin n → ℚ) : LMPC n m :=
  { c with x_ref := x_ref, u_ref := fun _ => 0 }

/-- `cp.quad_form(v, M) = vᵗ M v`. -/
def quadForm {d : ℕ} (M : Matrix (Fin d) (Fin d) ℚ) (v : Fin d → ℚ) : ℚ :=
  Matrix.dotProduct v (M.mulVec v)

/-- Elementwise lower bound `v >= lo`, posed only when the bound is
configured (`is not None`). -/
def lbOk {d : ℕ} : Option (Fin d → ℚ) → (Fin d → ℚ) → Prop
  | none, _ => True
  | some lo, v => ∀ i, lo i ≤ v i

/-- Elementwise upper bound `v <= hi`, posed only when the bound is
configured (`is not None`). -/
def ubOk {d : ℕ} : Option (Fin d → ℚ) → (Fin d → ℚ) → Prop
  | none, _ => True
  | some hi, v => ∀ i, v i ≤ hi i

instance {d : ℕ} : ∀ (b : Option (Fin d → ℚ)) (v : Fin d → ℚ), Decidable (lbOk b v)
  | none, _ => Decidable.isTrue True.intro
  | some lo, v => inferInstanceAs (Decidable (∀ i, lo i ≤ v i))

instance {d : ℕ} : ∀ (b : Option (Fin d → ℚ)) (v : Fin d → ℚ), Decidable (ubOk b v)
  | none, _ => Decidable.isTrue True.intro
  | some hi, v => inferInstanceAs (Decidable (∀ i, v i ≤ hi i))

/-- The constraint list built by `solve_mpc`: the initial-condition pin
`X[0] == x_current`; the dynamics recursion for `k in range(N)`; state box
bounds for `k in range(N + 1)` when configured; input box bounds for
`k in range(N)` when configured. Decision trajectories are read at indices
`0..N` (states) and `0..N-1` (inputs). -/
def MpcConstraints (c : LMPC n m) (x_current : Fin n → ℚ)
    (X : ℕ → Fin n → ℚ) (U : ℕ → Fin m → ℚ) : Prop :=
  X 0 = x_current
  ∧ (∀ k, k < c.N → X (k + 1) = c.A.mulVec (X k) + c.B.mulVec (U k))
  ∧ (∀ k, k ≤ c.N → lbOk c.x_min (X k))
  ∧ (∀ k, k ≤ c.N → ubOk c.x_max (X k))
  ∧ (∀ k, k < c.N → lbOk c.u_min (U k))
  ∧ (∀ k, k < c.N → ubOk c.u_max (U k))

instance (c : LMPC n m) (x_current : Fin n → ℚ) (X : ℕ → Fin n → ℚ)
    (U : ℕ → Fin m → ℚ) : Decidable (MpcConstraints c x_current X U) :=
  inferInstanceAs (Decidable (_ ∧ _ ∧ _ ∧ _ ∧ _ ∧ _))

/-- Some assignment satisfies every constraint `solve_mpc` poses. -/
def QPFeasible (c : LMPC n m) (x_current : Fin n → ℚ) : Prop :=
  ∃ X U, MpcConstraints c x_current X U

/-- The objective built by `solve_mpc`: stage costs
`quad_form(X[k]-x_ref, Q) + quad_form(U[k]-u_ref, R)` for `k in range(N)`,
plus the terminal cost `quad_form(X[N]-x_ref, Qn)`. -/
def mpcCost (c : LMPC n m) (X : ℕ → Fin n → ℚ) (U : ℕ → Fin m → ℚ) : ℚ :=
  (∑ k in Finset.range c.N,
    (quadForm c.Q (X k - c.x_ref) + quadForm c.R (U k - c.u_ref)))
  + quadForm c.Qn (X c.N - c.x_ref)

/-- What `problem.solve(...)` leaves behind: the terminal status string and
the solver's variable assignments `X.value` and `U.value` (each `None` or an
array, modelled as a trajectory read at indices up to the horizon). -/
structure SolverOutcome (n m : ℕ) where
  status : String
  Xval : Option (ℕ → Fin n → ℚ)
  Uval : Option (ℕ → Fin m → ℚ)

/-- The tail of `solve_mpc` after `problem.solve`: statuses `"infeasible"`
and `"unbounded"` yield `(np.zeros(m), None, None)`; every other status
takes the success branch `return U.value[0], X.value, U.value`, which
dereferences `U.value` — `none` there is the Python crash, modelled as the
`none` result. -/
def solve_mpc (c : LMPC n m) (x_current : Fin n → ℚ) (out : SolverOutcome n m) :
    Option ((Fin m → ℚ) × Option (ℕ → Fin n → ℚ) × Option (ℕ → Fin m → ℚ)) :=
  if out.status = "infeasible" ∨ out.status = "unbounded" then
    some (fun _ => 0, none, none)
  else
    match out.Uval with
    | some Uv => some (Uv 0, out.Xval, some Uv)
    | none => none

/-! ### Simulation loop (`LMPC.simulate`) -/

/-- The realized state after `k` iterations of the `simulate` loop
(`x = self.A @ x + self.B @ u_opt`), threading the per-step solver outcome
`oracle k`; `none` once any step's `solve_mpc` has crashed. -/
def simX (c : LMPC n m) (oracle : ℕ → SolverOutcome n m) (x0 : Fin n → ℚ) :
    ℕ → Option (Fin n → ℚ)
  | 0 => some x0
  | k + 1 =>
    (simX c oracle x0 k).bind fun x =>
      (solve_mpc c x (oracle k)).map fun r => c.A.mulVec x + c.B.mulVec r.1

/-- The input applied at step `k` of the `simulate` loop (the first
component returned by `solve_mpc` on the current realized state). -/
def simU (c : LMPC n m) (oracle : ℕ → SolverOutcome n m) (x0 : Fin n → ℚ) (k : ℕ) :
    Option (Fin m → ℚ) :=
  (simX c oracle x0 k).bind fun x => (solve_mpc c x (oracle k)).map fun r => r.1

/-- `np.linspace(start, stop, num)` with endpoint spacing
`(stop - start) / (num - 1)`, read at index `k`. -/
def linspace (start stop : ℚ) (num : ℕ) (k : ℕ) : ℚ :=
  if num ≤ 1 then start else start + (k : ℚ) * ((stop - start) / ((num : ℚ) - 1))

/-- The three arrays `simulate` returns: `X_hist` (shape `(N_sim+1, n)`),
`U_hist` (shape `(N_sim, m)`), `t_hist` (length `N_sim+1`). -/
structure SimResult (n m N_sim : ℕ) where
  X_hist : Fin (N_sim + 1) → Fin n → ℚ
  U_hist : Fin N_sim → Fin m → ℚ
  t_hist : Fin (N_sim + 1) → ℚ

/-- The controller actually used inside `simulate`: `set_reference` is
applied first when an `x_ref` argument is passed. -/
def simCtl (c : LMPC n m) (x_refOpt : Option (Fin n → ℚ)) : LMPC n m :=
  match x_refOpt with
  | some r => c.set_reference r
  | none => c

/-- `LMPC.simulate(x0, N_sim, x_ref, dt)`: optionally retarget the
reference, then run `N_sim` steps, recording `X_hist[0] = x0`,
`U_hist[k] = u_opt`, `X_hist[k+1] = A @ x + B @ u_opt`, with
`t_hist = np.linspace(0, N_sim*dt, N_sim+1)`. A crash of any step's
`solve_mpc` aborts the whole call (`none`); otherwise every recorded value
is the unique value the loop computes. -/
def simulate (c : LMPC n m) (x0 : Fin n → ℚ) (N_sim : ℕ)
    (x_refOpt : Option (Fin n → ℚ)) (dt : ℚ) (oracle : ℕ → SolverOutcome n m) :
    Option (SimResult n m N_sim) :=
  if (∀ k : Fin (N_sim + 1), (simX (simCtl c x_refOpt) oracle x0 k.val).isSome = true)
      ∧ (∀ k : Fin N_sim, (simU (simCtl c x_refOpt) oracle x0 k.val).isSome = true) then
    some { X_hist := fun k => (simX (simCtl c x_refOpt) oracle x0 k.val).getD (fun _ => 0),
           U_hist := fun k => (simU (simCtl c x_refOpt) oracle x0 k.val).getD (fun _ => 0),
           t_hist := fun k => linspace 0 ((N_sim : ℚ) * dt) (N_sim + 1) k.val }
  else none

/-! ### Definiteness predicates for the cost weights -/

/-- Positive definiteness of the quadratic form `v ↦ vᵗ M v`. -/
def PosDefQF {d : ℕ} (M : Matrix (Fin d) (Fin d) ℚ) : Prop :=
  ∀ v : Fin d → ℚ, v ≠ 0 → 0 < quadForm M v

/-- Positive semidefiniteness of the quadratic form `v ↦ vᵗ M v`. -/
def PosSemidefQF {d : ℕ} (M : Matrix (Fin d) (Fin d) ℚ) : Prop :=
  ∀ v : Fin d → ℚ, 0 ≤ quadForm M v

/-- A configured lower bound keeps `0` strictly in its interior (or is
absent). -/
def strictLb0 {d : ℕ} : Option (Fin d → ℚ) → Prop
  | none => True
  | some lo => ∀ i, lo i < 0

/-- A configured upper bound keeps `0` strictly in its interior (or is
absent). -/
def strictUb0 {d : ℕ} : Option (Fin d → ℚ) → Prop
  | none => True
  | some hi => ∀ i, 0 < hi i

/-! ### Concrete instances used by the evaluation witnesses -/

/-- A minimal unconstrained 1-state/1-input controller with horizon 1. -/
def cEx : LMPC 1 1 :=
  { A := !![1], B := !![1], N := 1, Q := !![1], R := !![1], Qn := !![1],
    x_min := none, x_max := none, u_min := none, u_max := none,
    x_ref := fun _ => 0, u_ref := fun _ => 0 }

/-- A controller whose configured state bounds are contradictory. -/
def cBad : LMPC 1 1 :=
  { A := !![1], B := !![1], N := 1, Q := !![1], R := !![1], Qn := !![1],
    x_min := some (fun _ => 1), x_max := some (fun _ => 0),
    u_min := none, u_max := none,
    x_ref := fun _ => 0, u_ref := fun _ => 0 }

/-- A successful solver outcome carrying the all-zero assignment. -/
def outOpt : SolverOutcome 1 1 :=
  { status := "optimal", Xval := some 0, Uval := some 0 }

/-- A solver outcome reporting infeasibility (no assignment). -/
def outInf : SolverOutcome 1 1 :=
  { status := "infeasible", Xval := none, Uval := none }

/-- The reference configuration of `config.py` (`g` defaulted to `9.81`). -/
def pEx : PendulumParams :=
  { m0 := 3/2, m1 := 1/2, m2 := 3/4, L1 := 1/2, L2 := 3/4, g := 981/100 }

/-! ### Theorems -/

/-- C9: `set_reference(r)` sets `x_ref` to `r`, resets `u_ref` to the zero
vector of the input dimension, and leaves every other controller field
(`A_d`, `B_d`, `N`, `Q`, `R`, `Qn`, and all four box bounds) unchanged. -/
theorem set_reference_sets_ref_and_preserves_rest (c : LMPC n m) (r : Fin n → ℚ) :
    (c.set_reference r).x_ref = r
    ∧ (c.set_reference r).u_ref = 0
    ∧ (c.set_reference r).A = c.A
    ∧ (c.set_reference r).B = c.B
    ∧ (c.set_reference r).N = c.N
    ∧ (c.set_reference r).Q = c.Q
    ∧ (c.set_reference r).R = c.R
    ∧ (c.set_reference r).Qn = c.Qn
    ∧ (c.set_reference r).x_min = c.x_min
    ∧ (c.set_reference r).x_max = c.x_max
    ∧ (c.set_reference r).u_min = c.u_min
    ∧ (c.set_reference r).u_max = c.u_max :=
  ⟨rfl, rfl, rfl, rfl, rfl, rfl, rfl, rfl, rfl, rfl, rfl, rfl⟩

/-- C5: for any continuous pair and any `dt > 0`, the discretization of
`main.py` produces exactly `A_d = I + A·dt` and `B_d = B·dt` elementwise. -/
theorem discretize_is_first_order_euler {k l : ℕ} (A : Matrix (Fin k) (Fin k) ℚ)
    (B : Matrix (Fin k) (Fin l) ℚ) (dt : ℚ) (hdt : 0 < dt) :
    (∀ i j, (discretize A B dt).1 i j = (if i = j then 1 else 0) + A i j * dt)
    ∧ (∀ i j, (discretize A B dt).2 i j = B i j * dt) := by
  refine ⟨fun i j => ?_, fun i j => ?_⟩
  · simp [discretize, Matrix.add_apply, Matrix.one_apply, Matrix.smul_apply,
      smul_eq_mul, mul_comm]
  · simp [discretize, Matrix.smul_apply, smul_eq_mul, mul_comm]

/-- Witness for C5 at `A = [[2]]`, `B = [[3]]`, `dt = 1`. -/
theorem discretize_is_first_order_euler_witness :
    (0:ℚ) < 1
    ∧ ((∀ i j, (discretize !![(2:ℚ)] !![(3:ℚ)] 1).1 i j = (if i = j then 1 else 0) + !![(2:ℚ)] i j * 1)
       ∧ (∀ i j, (discretize !![(2:ℚ)] !![(3:ℚ)] 1).2 i j = !![(3:ℚ)] i j * 1)) :=
  ⟨by norm_num, discretize_is_first_order_euler !![(2:ℚ)] !![(3:ℚ)] 1 (by norm_num)⟩

/-- C10: `solve_mpc` crashes (dereferences a null `U.value`) exactly when
the solver status is neither the exact string `"infeasible"` nor
`"unbounded"` and the solver left no input assignment; every status outside
those two strings takes the success branch. -/
theorem solve_mpc_crashes_iff_success_branch_null (c : LMPC n m) (x : Fin n → ℚ)
    (out : SolverOutcome n m) :
    solve_mpc c x out = none ↔
      (out.status ≠ "infeasible" ∧ out.status ≠ "unbounded" ∧ out.Uval = none) := by
  unfold solve_mpc
  by_cases h : out.status = "infeasible" ∨ out.status = "unbounded"
  · rw [if_pos h]
    simp only [reduceCtorEq, false_iff]
    intro hc
    rcases h with h | h
    · exact hc.1 h
    · exact hc.2.1 h
  · rw [if_neg h]
    push_neg at h
    cases hU : out.Uval with
    | none => simp [h.1, h.2, hU]
    | some Uv => simp [h.1, h.2, hU]

/-- C3: on solver status `"infeasible"` or `"unbounded"`, `solve_mpc`
returns the zero input of the controller's input dimension together with
null trajectories — and any success-branch return carries a non-null input
trajectory, so the degraded result is distinguishable. -/
theorem solve_mpc_failure_returns_zero_null (c : LMPC n m) (x : Fin n → ℚ)
    (out : SolverOutcome n m)
    (h : out.status = "infeasible" ∨ out.status = "unbounded") :
    solve_mpc c x out = some (0, none, none)
    ∧ (∀ (out' : SolverOutcome n m)
        (r : (Fin m → ℚ) × Option (ℕ → Fin n → ℚ) × Option (ℕ → Fin m → ℚ)),
        ¬(out'.status = "infeasible" ∨ out'.status = "unbounded") →
        solve_mpc c x out' = some r → r.2.2.isSome = true) := by
  constructor
  · unfold solve_mpc
    rw [if_pos h]
    rfl
  · intro out' r h' hr
    unfold solve_mpc at hr
    rw [if_neg h'] at hr
    cases hU : out'.Uval with
    | none => rw [hU] at hr; exact absurd hr (by simp)
    | some Uv =>
      rw [hU] at hr
      cases hr
      rfl

/-- Witness for C3 on a reported-infeasible outcome. -/
theorem solve_mpc_failure_returns_zero_null_witness :
    (outInf.status = "infeasible" ∨ outInf.status = "unbounded")
    ∧ (solve_mpc cEx 0 outInf = some (0, none, none)
       ∧ (∀ (out' : SolverOutcome 1 1)
           (r : (Fin 1 → ℚ) × Option (ℕ → Fin 1 → ℚ) × Option (ℕ → Fin 1 → ℚ)),
           ¬(out'.status = "infeasible" ∨ out'.status = "unbounded") →
           solve_mpc cEx 0 out' = some r → r.2.2.isSome = true)) :=
  ⟨Or.inl rfl, solve_mpc_failure_returns_zero_null cEx 0 outInf (Or.inl rfl)⟩

/-- C2: on a feasible solve (success status, assignments present and
satisfying every posed constraint), `solve_mpc` returns
`(U 0, some X, some U)`: the trajectories pin `X 0 = x_current`, follow the
discretized dynamics at every horizon step, and the returned first input is
`predicted_inputs[0]`. -/
theorem solve_mpc_feasible_trajectories (c : LMPC n m) (x : Fin n → ℚ)
    (out : SolverOutcome n m) (X : ℕ → Fin n → ℚ) (U : ℕ → Fin m → ℚ)
    (hstat : ¬(out.status = "infeasible" ∨ out.status = "unbounded"))
    (hX : out.Xval = some X) (hU : out.Uval = some U)
    (hfeas : MpcConstraints c x X U) :
    solve_mpc c x out = some (U 0, some X, some U)
    ∧ X 0 = x
    ∧ (∀ k, k < c.N → X (k + 1) = c.A.mulVec (X k) + c.B.mulVec (U k)) := by
  refine ⟨?_, hfeas.1, hfeas.2.1⟩
  unfold solve_mpc
  rw [if_neg hstat, hU, hX]

/-- C8: with contradictory configured bounds (`x_min[i] > x_max[i]`, or
`u_min[i] > u_max[i]` with the spec's horizon invariant `N ≥ 1`), the posed
QP has no feasible point at any `x_current`; a solver honouring its
contract then reports `"infeasible"`, and `solve_mpc` returns the zero
input with null trajectories. -/
theorem contradictory_bounds_make_qp_infeasible (c : LMPC n m) (x : Fin n → ℚ)
    (out : SolverOutcome n m) (hN : 1 ≤ c.N)
    (hbad : (∃ lo hi, c.x_min = some lo ∧ c.x_max = some hi ∧ ∃ i, hi i < lo i)
          ∨ (∃ lo hi, c.u_min = some lo ∧ c.u_max = some hi ∧ ∃ i, hi i < lo i))
    (hcontract : ¬ QPFeasible c x → out.status = "infeasible") :
    ¬ QPFeasible c x
    ∧ out.status = "infeasible"
    ∧ solve_mpc c x out = some (0, none, none) := by
  have hinf : ¬ QPFeasible c x := by
    rintro ⟨X, U, hc⟩
    rcases hbad with ⟨lo, hi, hlo, hhi, i, hih⟩ | ⟨lo, hi, hlo, hhi, i, hih⟩
    · have h1 := hc.2.2.1 0 (Nat.zero_le _)
      have h2 := hc.2.2.2.1 0 (Nat.zero_le _)
      rw [hlo] at h1
      rw [hhi] at h2
      exact absurd (le_trans (h1 i) (h2 i)) (not_le.mpr hih)
    · have h1 := hc.2.2.2.2.1 0 hN
      have h2 := hc.2.2.2.2.2 0 hN
      rw [hlo] at h1
      rw [hhi] at h2
      exact absurd (le_trans (h1 i) (h2 i)) (not_le.mpr hih)
  have hst := hcontract hinf
  refine ⟨hinf, hst, ?_⟩
  unfold solve_mpc
  rw [if_pos (Or.inl hst)]
  rfl

/-- Witness for C8 on the controller with `x_min = 1 > 0 = x_max`. -/
theorem contradictory_bounds_make_qp_infeasible_witness :
    1 ≤ cBad.N
    ∧ ((∃ lo hi, cBad.x_min = some lo ∧ cBad.x_max = some hi ∧ ∃ i, hi i < lo i)
       ∨ (∃ lo hi, cBad.u_min = some lo ∧ cBad.u_max = some hi ∧ ∃ i, hi i < lo i))
    ∧ (¬ QPFeasible cBad 0 → outInf.status = "infeasible")
    ∧ (¬ QPFeasible cBad 0
       ∧ outInf.status = "infeasible"
       ∧ solve_mpc cBad 0 outInf = some (0, none, none)) :=
  ⟨le_refl 1,
    Or.inl ⟨fun _ => 1, fun _ => 0, rfl, rfl, 0, by norm_num⟩,
    fun _ => rfl,
    contradictory_bounds_make_qp_infeasible cBad 0 outInf (le_refl 1)
      (Or.inl ⟨fun _ => 1, fun _ => 0, rfl, rfl, 0, by norm_num⟩) (fun _ => rfl)⟩

/-- The determinant of the effective mass matrix factors as
`L1²·L2²·m2·(m0·m1/9 + m0·m2/12 + m1²/36 + m1·m2/36)`. -/
theorem det3_M0_factored (p : PendulumParams) :
    det3 p.M0 = p.L1 ^ 2 * p.L2 ^ 2 * p.m2 *
      (p.m0 * p.m1 / 9 + p.m0 * p.m2 / 12 + p.m1 ^ 2 / 36 + p.m1 * p.m2 / 36) := by
  simp [det3, PendulumParams.M0, PendulumParams.M11, PendulumParams.M12,
    PendulumParams.M13, PendulumParams.M22, PendulumParams.M23, PendulumParams.M33,
    PendulumParams.l1, PendulumParams.l2, PendulumParams.I1, PendulumParams.I2]
  ring

/-- A 3×3 matrix with nonzero determinant is a two-sided inverse pair with
its adjugate-over-determinant inverse. -/
theorem mul_inv3_eq_one (M : Matrix (Fin 3) (Fin 3) ℚ) (h : det3 M ≠ 0) :
    M * inv3 M = 1 ∧ inv3 M * M = 1 := by
  have h' : M 0 0 * (M 1 1 * M 2 2 - M 1 2 * M 2 1)
      - M 0 1 * (M 1 0 * M 2 2 - M 1 2 * M 2 0)
      + M 0 2 * (M 1 0 * M 2 1 - M 1 1 * M 2 0) ≠ 0 := h
  constructor <;>
    · ext i j
      fin_cases i <;> fin_cases j <;>
        · simp [inv3, det3, Matrix.mul_apply, Fin.sum_univ_three, Matrix.smul_apply,
            smul_eq_mul, Matrix.one_apply]
          field_simp
          try ring

/-- C1: for positive physical parameters, the continuous pair `(A, B)`
assembled by `_compute_state_space_matrices` coincides with the spec's
closed form: kinematic-identity rows 0–2, `A[3:6,0:3] = −(M0⁻¹ · G)`,
`B[3:6,0] = M0⁻¹ · (1,0,0)ᵗ`, and zeros everywhere else. -/
theorem linearized_AB_match_spec (p : PendulumParams)
    (hm0 : 0 < p.m0) (hm1 : 0 < p.m1) (hm2 : 0 < p.m2)
    (hL1 : 0 < p.L1) (hL2 : 0 < p.L2) :
    p.A = A_spec p ∧ p.B = B_spec p := by
  have hG : G_spec p = p.dh_dtheta := by
    ext i j
    fin_cases i <;> fin_cases j <;> rfl
  have hA21 : p.A21 = -(inv3 (M0_spec p) * G_spec p) := by
    rw [hG]
    show -p.M0_inv * p.dh_dtheta = -(inv3 (M0_spec p) * p.dh_dtheta)
    rw [Matrix.neg_mul]
    rfl
  constructor
  · unfold PendulumParams.A
    rw [hA21]
    ext i j
    fin_cases i <;> fin_cases j <;> rfl
  · unfold PendulumParams.B
    ext i j
    fin_cases i <;> fin_cases j <;> rfl

/-- Witness for C1 at the configuration of `config.py`. -/
theorem linearized_AB_match_spec_witness :
    ((0:ℚ) < pEx.m0 ∧ (0:ℚ) < pEx.m1 ∧ (0:ℚ) < pEx.m2 ∧ (0:ℚ) < pEx.L1 ∧ (0:ℚ) < pEx.L2)
    ∧ (pEx.A = A_spec pEx ∧ pEx.B = B_spec pEx) :=
  ⟨⟨by norm_num [pEx], by norm_num [pEx], by norm_num [pEx], by norm_num [pEx],
      by norm_num [pEx]⟩,
    linearized_AB_match_spec pEx (by norm_num [pEx]) (by norm_num [pEx])
      (by norm_num [pEx]) (by norm_num [pEx]) (by norm_num [pEx])⟩

/-- C6: for strictly positive masses and lengths, the effective mass
matrix `M0` is invertible — its determinant is nonzero and
`np.linalg.inv`'s result is a genuine two-sided inverse — so the inversion
step of the dynamics constructor cannot fail. -/
theorem M0_invertible_for_positive_params (p : PendulumParams)
    (hm0 : 0 < p.m0) (hm1 : 0 < p.m1) (hm2 : 0 < p.m2)
    (hL1 : 0 < p.L1) (hL2 : 0 < p.L2) :
    det3 p.M0 ≠ 0 ∧ p.M0 * p.M0_inv = 1 ∧ p.M0_inv * p.M0 = 1 := by
  have hdet : 0 < det3 p.M0 := by
    rw [det3_M0_factored]
    have h1 : 0 < p.L1 ^ 2 * p.L2 ^ 2 * p.m2 :=
      mul_pos (mul_pos (pow_pos hL1 2) (pow_pos hL2 2)) hm2
    have h2 : 0 < p.m0 * p.m1 / 9 + p.m0 * p.m2 / 12 + p.m1 ^ 2 / 36 + p.m1 * p.m2 / 36 := by
      have ha : 0 < p.m0 * p.m1 / 9 := by positivity
      have hb : 0 < p.m0 * p.m2 / 12 := by positivity
      have hc : 0 < p.m1 ^ 2 / 36 := by positivity
      have hd : 0 < p.m1 * p.m2 / 36 := by positivity
      linarith
    exact mul_pos h1 h2
  have hne : det3 p.M0 ≠ 0 := ne_of_gt hdet
  exact ⟨hne, (mul_inv3_eq_one p.M0 hne).1, (mul_inv3_eq_one p.M0 hne).2⟩

/-- Witness for C6 at the configuration of `config.py`. -/
theorem M0_invertible_for_positive_params_witness :
    ((0:ℚ) < pEx.m0 ∧ (0:ℚ) < pEx.m1 ∧ (0:ℚ) < pEx.m2 ∧ (0:ℚ) < pEx.L1 ∧ (0:ℚ) < pEx.L2)
    ∧ (det3 pEx.M0 ≠ 0 ∧ pEx.M0 * pEx.M0_inv = 1 ∧ pEx.M0_inv * pEx.M0 = 1) :=
  ⟨⟨by norm_num [pEx], by norm_num [pEx], by norm_num [pEx], by norm_num [pEx],
      by norm_num [pEx]⟩,
    M0_invertible_for_positive_params pEx (by norm_num [pEx]) (by norm_num [pEx])
      (by norm_num [pEx]) (by norm_num [pEx]) (by norm_num [pEx])⟩

/-- The quadratic form vanishes at the zero vector. -/
theorem quadForm_zero_vec {d : ℕ} (M : Matrix (Fin d) (Fin d) ℚ) : quadForm M 0 = 0 := by
  simp [quadForm]

/-- A positive definite quadratic form is positive semidefinite. -/
theorem posSemidef_of_posDef {d : ℕ} {M : Matrix (Fin d) (Fin d) ℚ}
    (h : PosDefQF M) : PosSemidefQF M := by
  intro v
  by_cases hv : v = 0
  · rw [hv, quadForm_zero_vec]
  · exact le_of_lt (h v hv)

/-- With positive semidefinite `Q`, `R`, `Qn`, every trajectory pair has
nonnegative MPC cost. -/
theorem mpcCost_nonneg (c : LMPC n m) (hQ : PosSemidefQF c.Q) (hR : PosSemidefQF c.R)
    (hQn : PosSemidefQF c.Qn) (X : ℕ → Fin n → ℚ) (U : ℕ → Fin m → ℚ) :
    0 ≤ mpcCost c X U := by
  unfold mpcCost
  have hs : 0 ≤ ∑ k in Finset.range c.N,
      (quadForm c.Q (X k - c.x_ref) + quadForm c.R (U k - c.u_ref)) :=
    Finset.sum_nonneg fun k _ => add_nonneg (hQ _) (hR _)
  have ht := hQn (X c.N - c.x_ref)
  linarith

/-- With the reference at the origin, the all-zero trajectory has zero
cost. -/
theorem mpcCost_zero_refzero (c : LMPC n m) (hx : c.x_ref = 0) (hu : c.u_ref = 0) :
    mpcCost c 0 0 = 0 := by
  unfold mpcCost
  rw [hx, hu]
  simp [quadForm]

/-- Absent bounds, or bounds containing `0` strictly, admit the zero
vector. -/
theorem lbOk_zero_of_strict {d : ℕ} (b : Option (Fin d → ℚ)) (h : strictLb0 b) :
    lbOk b 0 := by
  cases b with
  | none => trivial
  | some lo => exact fun i => le_of_lt (h i)

/-- Absent bounds, or bounds containing `0` strictly, admit the zero
vector. -/
theorem ubOk_zero_of_strict {d : ℕ} (b : Option (Fin d → ℚ)) (h : strictUb0 b) :
    ubOk b 0 := by
  cases b with
  | none => trivial
  | some hi => exact fun i => le_of_lt (h i)

/-- When no configured bound excludes the origin, the all-zero trajectory
satisfies every constraint `solve_mpc` poses at `x_current = 0`. -/
theorem zero_traj_feasible (c : LMPC n m)
    (hxmin : strictLb0 c.x_min) (hxmax : strictUb0 c.x_max)
    (humin : strictLb0 c.u_min) (humax : strictUb0 c.u_max) :
    MpcConstraints c 0 0 0 :=
  ⟨rfl, fun k _ => by simp,
    fun k _ => lbOk_zero_of_strict _ hxmin, fun k _ => ubOk_zero_of_strict _ hxmax,
    fun k _ => lbOk_zero_of_strict _ humin, fun k _ => ubOk_zero_of_strict _ humax⟩

/-- C7: with `x_current = x_ref = 0`, `u_ref = 0`, no bound active at the
origin, `Q`, `R` positive definite and `Qn` positive semidefinite (the
spec's standing invariant on cost weights), an optimal solve returns the
zero first input: the all-zero trajectory is feasible with cost `0`, every
feasible trajectory of nonpositive cost is identically zero, and
`solve_mpc` returns `(0, some X, some U)`. -/
theorem mpc_zero_equilibrium_optimal (c : LMPC n m) (out : SolverOutcome n m)
    (X : ℕ → Fin n → ℚ) (U : ℕ → Fin m → ℚ) (hN : 1 ≤ c.N)
    (hxref : c.x_ref = 0) (huref : c.u_ref = 0)
    (hxmin : strictLb0 c.x_min) (hxmax : strictUb0 c.x_max)
    (humin : strictLb0 c.u_min) (humax : strictUb0 c.u_max)
    (hQ : PosDefQF c.Q) (hR : PosDefQF c.R) (hQn : PosSemidefQF c.Qn)
    (hstat : ¬(out.status = "infeasible" ∨ out.status = "unbounded"))
    (hXv : out.Xval = some X) (hUv : out.Uval = some U)
    (hfeas : MpcConstraints c 0 X U)
    (hopt : ∀ X' U', MpcConstraints c 0 X' U' → mpcCost c X U ≤ mpcCost c X' U') :
    MpcConstraints c 0 0 0
    ∧ mpcCost c 0 0 = 0
    ∧ (∀ X' U', MpcConstraints c 0 X' U' → mpcCost c X' U' ≤ 0 →
        (∀ k, k ≤ c.N → X' k = 0) ∧ (∀ k, k < c.N → U' k = 0))
    ∧ U 0 = 0
    ∧ solve_mpc c 0 out = some (0, some X, some U) := by
  have hQp : PosSemidefQF c.Q := posSemidef_of_posDef hQ
  have hRp : PosSemidefQF c.R := posSemidef_of_posDef hR
  have hzero : MpcConstraints c 0 0 0 := zero_traj_feasible c hxmin hxmax humin humax
  have hcost0 : mpcCost c 0 0 = 0 := mpcCost_zero_refzero c hxref huref
  have huniq : ∀ X' U', MpcConstraints c 0 X' U' → mpcCost c X' U' ≤ 0 →
      (∀ k, k ≤ c.N → X' k = 0) ∧ (∀ k, k < c.N → U' k = 0) := by
    intro X' U' hfeas' hle
    have hterm_nonneg : ∀ k : ℕ, (0:ℚ) ≤ quadForm c.Q (X' k - c.x_ref) + quadForm c.R (U' k - c.u_ref) :=
      fun k => add_nonneg (hQp _) (hRp _)
    have hsum_nonneg : 0 ≤ ∑ k in Finset.range c.N,
        (quadForm c.Q (X' k - c.x_ref) + quadForm c.R (U' k - c.u_ref)) :=
      Finset.sum_nonneg fun k _ => hterm_nonneg k
    have hterm := hQn (X' c.N - c.x_ref)
    have hsum0 : ∑ k in Finset.range c.N,
        (quadForm c.Q (X' k - c.x_ref) + quadForm c.R (U' k - c.u_ref)) = 0 := by
      unfold mpcCost at hle
      linarith
    have hU0 : ∀ k, k < c.N → U' k = 0 := by
      intro k hk
      have hterm0 :=
        (Finset.sum_eq_zero_iff_of_nonneg fun j _ => hterm_nonneg j).mp hsum0 k
          (Finset.mem_range.mpr hk)
      have hr0 : quadForm c.R (U' k - c.u_ref) = 0 := by
        have h1 := hQp (X' k - c.x_ref)
        have h2 := hRp (U' k - c.u_ref)
        linarith
      by_contra hne
      have hsub : U' k - c.u_ref ≠ 0 := by
        rw [huref, sub_zero]
        exact hne
      exact absurd hr0 (ne_of_gt (hR _ hsub))
    have hX0 : ∀ k, k ≤ c.N → X' k = 0 := by
      intro k hk
      induction k with
      | zero => exact hfeas'.1
      | succ k ih =>
        have hklt : k < c.N := hk
        have hstep := hfeas'.2.1 k hklt
        rw [ih (le_of_lt hklt), hU0 k hklt] at hstep
        simpa using hstep
    exact ⟨hX0, hU0⟩
  have hXU : (∀ k, k ≤ c.N → X k = 0) ∧ (∀ k, k < c.N → U k = 0) := by
    refine huniq X U hfeas ?_
    have := hopt 0 0 hzero
    rw [hcost0] at this
    exact this
  have hU00 : U 0 = 0 := hXU.2 0 hN
  refine ⟨hzero, hcost0, huniq, hU00, ?_⟩
  unfold solve_mpc
  rw [if_neg hstat, hUv]
  show some (U 0, out.Xval, some U) = some (0, some X, some U)
  rw [hXv, hU00]

/-- The 1×1 identity weight is positive definite. -/
theorem posDefQF_one : PosDefQF !![(1:ℚ)] := by
  intro v hv
  have hv0 : v 0 ≠ 0 := by
    intro h0
    apply hv
    funext i
    fin_cases i
    exact h0
  have hq : quadForm !![(1:ℚ)] v = v 0 * v 0 := by
    simp [quadForm, Matrix.mulVec, Matrix.dotProduct, Fin.sum_univ_one]
  rw [hq]
  exact mul_self_pos.mpr hv0

/-- Witness for C7: the example controller at the origin with the all-zero
optimal assignment. -/
theorem mpc_zero_equilibrium_optimal_witness :
    MpcConstraints cEx 0 0 0
    ∧ mpcCost cEx 0 0 = 0
    ∧ (∀ X' U', MpcConstraints cEx 0 X' U' → mpcCost cEx X' U' ≤ 0 →
        (∀ k, k ≤ cEx.N → X' k = 0) ∧ (∀ k, k < cEx.N → U' k = 0))
    ∧ (0 : ℕ → Fin 1 → ℚ) 0 = 0
    ∧ solve_mpc cEx 0 outOpt = some (0, some 0, some 0) :=
  mpc_zero_equilibrium_optimal cEx outOpt 0 0 (le_refl 1) rfl rfl
    True.intro True.intro True.intro True.intro
    posDefQF_one posDefQF_one (posSemidef_of_posDef posDefQF_one)
    (by decide) rfl rfl
    (zero_traj_feasible cEx True.intro True.intro True.intro True.intro)
    (fun X' U' h => by
      rw [mpcCost_zero_refzero cEx rfl rfl]
      exact mpcCost_nonneg cEx (posSemidef_of_posDef posDefQF_one)
        (posSemidef_of_posDef posDefQF_one) (posSemidef_of_posDef posDefQF_one) X' U')

/-- Under the solver contract (failure status or a present assignment),
`solve_mpc` does not crash. -/
theorem solve_mpc_isSome (c : LMPC n m) (x : Fin n → ℚ) (out : SolverOutcome n m)
    (h : out.status = "infeasible" ∨ out.status = "unbounded" ∨ out.Uval.isSome = true) :
    (solve_mpc c x out).isSome = true := by
  unfold solve_mpc
  by_cases hs : out.status = "infeasible" ∨ out.status = "unbounded"
  · rw [if_pos hs]
    rfl
  · rw [if_neg hs]
    rcases h with h | h | h
    · exact absurd (Or.inl h) hs
    · exact absurd (Or.inr h) hs
    · cases hU : out.Uval with
      | none => rw [hU] at h; exact absurd h (by simp)
      | some Uv => rfl

/-- Non-crashing steps keep every realized state of the loop defined. -/
theorem simX_isSome (c : LMPC n m) (oracle : ℕ → SolverOutcome n m) (x0 : Fin n → ℚ)
    (N_sim : ℕ)
    (hnc : ∀ k, k < N_sim → (oracle k).status = "infeasible"
        ∨ (oracle k).status = "unbounded" ∨ ((oracle k).Uval).isSome = true) :
    ∀ k, k ≤ N_sim → (simX c oracle x0 k).isSome = true := by
  intro k
  induction k with
  | zero => exact fun _ => rfl
  | succ k ih =>
    intro hk
    have hx := ih (by omega)
    obtain ⟨x, hxeq⟩ := Option.isSome_iff_exists.mp hx
    have hsolve := solve_mpc_isSome c x (oracle k) (hnc k (by omega))
    obtain ⟨r, hreq⟩ := Option.isSome_iff_exists.mp hsolve
    show (simX c oracle x0 (k + 1)).isSome = true
    rw [simX, hxeq]
    simp [hreq]

/-- Non-crashing steps keep every recorded input of the loop defined. -/
theorem simU_isSome (c : LMPC n m) (oracle : ℕ → SolverOutcome n m) (x0 : Fin n → ℚ)
    (N_sim : ℕ)
    (hnc : ∀ k, k < N_sim → (oracle k).status = "infeasible"
        ∨ (oracle k).status = "unbounded" ∨ ((oracle k).Uval).isSome = true) :
    ∀ k, k < N_sim → (simU c oracle x0 k).isSome = true := by
  intro k hk
  obtain ⟨x, hxeq⟩ := Option.isSome_iff_exists.mp
    (simX_isSome c oracle x0 N_sim hnc k (le_of_lt hk))
  obtain ⟨r, hreq⟩ := Option.isSome_iff_exists.mp
    (solve_mpc_isSome c x (oracle k) (hnc k hk))
  unfold simU
  rw [hxeq]
  simp [hreq]

/-- `simulate` never touches `A` through the optional retargeting. -/
theorem simCtl_A (c : LMPC n m) (x_refOpt : Option (Fin n → ℚ)) :
    (simCtl c x_refOpt).A = c.A := by
  cases x_refOpt <;> rfl

/-- `simulate` never touches `B` through the optional retargeting. -/
theorem simCtl_B (c : LMPC n m) (x_refOpt : Option (Fin n → ℚ)) :
    (simCtl c x_refOpt).B = c.B := by
  cases x_refOpt <;> rfl

/-- C4: under the solver contract, `simulate` returns histories of
`N_sim + 1` states and `N_sim` inputs (their shapes), with `X_hist[0] = x0`,
a time vector starting at `0` with uniform spacing `dt`, and for every step
`X_hist[k+1] = A_d·X_hist[k] + B_d·U_hist[k]` where `U_hist[k]` is the
first input returned by `solve_mpc` on `X_hist[k]` — the plant update uses
the controller's own discretized pair. -/
theorem simulate_uses_predictor_as_plant (c : LMPC n m) (x0 : Fin n → ℚ) (N_sim : ℕ)
    (x_refOpt : Option (Fin n → ℚ)) (dt : ℚ) (oracle : ℕ → SolverOutcome n m)
    (hdt : 0 < dt)
    (hnc : ∀ k, k < N_sim → (oracle k).status = "infeasible"
        ∨ (oracle k).status = "unbounded" ∨ ((oracle k).Uval).isSome = true) :
    ∃ res : SimResult n m N_sim,
      simulate c x0 N_sim x_refOpt dt oracle = some res
      ∧ res.X_hist 0 = x0
      ∧ res.t_hist 0 = 0
      ∧ (∀ k : Fin N_sim, res.t_hist k.succ - res.t_hist k.castSucc = dt)
      ∧ (∀ k : Fin N_sim, ∃ r,
          solve_mpc (simCtl c x_refOpt) (res.X_hist k.castSucc) (oracle k.val) = some r
          ∧ res.U_hist k = r.1
          ∧ res.X_hist k.succ =
              c.A.mulVec (res.X_hist k.castSucc) + c.B.mulVec (res.U_hist k)) := by
  have hX : ∀ k, k ≤ N_sim → (simX (simCtl c x_refOpt) oracle x0 k).isSome = true :=
    simX_isSome (simCtl c x_refOpt) oracle x0 N_sim hnc
  have hU : ∀ k, k < N_sim → (simU (simCtl c x_refOpt) oracle x0 k).isSome = true :=
    simU_isSome (simCtl c x_refOpt) oracle x0 N_sim hnc
  have hcond : (∀ k : Fin (N_sim + 1),
        (simX (simCtl c x_refOpt) oracle x0 k.val).isSome = true)
      ∧ (∀ k : Fin N_sim, (simU (simCtl c x_refOpt) oracle x0 k.val).isSome = true) :=
    ⟨fun k => hX k.val (Nat.lt_succ_iff.mp k.isLt), fun k => hU k.val k.isLt⟩
  refine ⟨⟨fun k => (simX (simCtl c x_refOpt) oracle x0 k.val).getD (fun _ => 0),
          fun k => (simU (simCtl c x_refOpt) oracle x0 k.val).getD (fun _ => 0),
          fun k => linspace 0 ((N_sim : ℚ) * dt) (N_sim + 1) k.val⟩, ?_, ?_, ?_, ?_, ?_⟩
  · unfold simulate
    rw [if_pos hcond]
  · show (simX (simCtl c x_refOpt) oracle x0 (0 : Fin (N_sim + 1)).val).getD (fun _ => 0) = x0
    rw [Fin.val_zero, simX]
    rfl
  · show linspace 0 ((N_sim : ℚ) * dt) (N_sim + 1) (0 : Fin (N_sim + 1)).val = 0
    rw [Fin.val_zero]
    unfold linspace
    split <;> simp
  · intro k
    have hNpos : 0 < N_sim := lt_of_le_of_lt (Nat.zero_le _) k.isLt
    show linspace 0 ((N_sim : ℚ) * dt) (N_sim + 1) k.succ.val
        - linspace 0 ((N_sim : ℚ) * dt) (N_sim + 1) k.castSucc.val = dt
    unfold linspace
    rw [if_neg (by omega), if_neg (by omega), Fin.val_succ, Fin.coe_castSucc]
    have hN0 : (N_sim : ℚ) ≠ 0 := Nat.cast_ne_zero.mpr (by omega)
    push_cast
    field_simp
    ring
  · intro k
    obtain ⟨x, hxeq⟩ := Option.isSome_iff_exists.mp (hX k.val (le_of_lt k.isLt))
    obtain ⟨r, hreq⟩ := Option.isSome_iff_exists.mp
      (solve_mpc_isSome (simCtl c x_refOpt) x (oracle k.val) (hnc k.val k.isLt))
    refine ⟨r, ?_, ?_, ?_⟩
    · show solve_mpc (simCtl c x_refOpt)
          ((simX (simCtl c x_refOpt) oracle x0 k.castSucc.val).getD (fun _ => 0))
          (oracle k.val) = some r
      rw [Fin.coe_castSucc, hxeq]
      exact hreq
    · show (simU (simCtl c x_refOpt) oracle x0 k.val).getD (fun _ => 0) = r.1
      unfold simU
      rw [hxeq]
      simp [hreq]
    · show (simX (simCtl c x_refOpt) oracle x0 k.succ.val).getD (fun _ => 0)
        = c.A.mulVec ((simX (simCtl c x_refOpt) oracle x0 k.castSucc.val).getD (fun _ => 0))
          + c.B.mulVec ((simU (simCtl c x_refOpt) oracle x0 k.val).getD (fun _ => 0))
      rw [Fin.val_succ, Fin.coe_castSucc, simX, hxeq]
      have hu : (simU (simCtl c x_refOpt) oracle x0 k.val) = some r.1 := by
        unfold simU
        rw [hxeq]
        simp [hreq]
      rw [hu]
      simp [hreq, simCtl_A, simCtl_B]

/-- Witness for C4: one step of the example controller with an optimal
oracle. -/
theorem simulate_uses_predictor_as_plant_witness :
    (0:ℚ) < 1
    ∧ (∃ res : SimResult 1 1 1,
        simulate cEx 0 1 none 1 (fun _ => outOpt) = some res
        ∧ res.X_hist 0 = 0
        ∧ res.t_hist 0 = 0
        ∧ (∀ k : Fin 1, res.t_hist k.succ - res.t_hist k.castSucc = 1)
        ∧ (∀ k : Fin 1, ∃ r,
            solve_mpc (simCtl cEx none) (res.X_hist k.castSucc) ((fun _ => outOpt) k.val) = some r
            ∧ res.U_hist k = r.1
            ∧ res.X_hist k.succ =
                cEx.A.mulVec (res.X_hist k.castSucc) + cEx.B.mulVec (res.U_hist k))) :=
  ⟨by norm_num,
    simulate_uses_predictor_as_plant cEx 0 1 none 1 (fun _ => outOpt) (by norm_num)
      (fun k _ => Or.inr (Or.inr rfl))⟩

/-- Witness for C2 on the zero assignment for the unconstrained example
controller. -/
theorem solve_mpc_feasible_trajectories_witness :
    (¬(outOpt.status = "infeasible" ∨ outOpt.status = "unbounded"))
    ∧ outOpt.Xval = some 0
    ∧ outOpt.Uval = some 0
    ∧ MpcConstraints cEx 0 0 0
    ∧ (solve_mpc cEx 0 outOpt = some ((0 : ℕ → Fin 1 → ℚ) 0, some 0, some 0)
       ∧ (0 : ℕ → Fin 1 → ℚ) 0 = 0
       ∧ (∀ k, k < cEx.N →
           (0 : ℕ → Fin 1 → ℚ) (k + 1) =
             cEx.A.mulVec ((0 : ℕ → Fin 1 → ℚ) k) + cEx.B.mulVec ((0 : ℕ → Fin 1 → ℚ) k))) :=
  ⟨by decide, rfl, rfl,
    ⟨rfl, fun k _ => by simp, fun k _ => trivial, fun k _ => trivial,
      fun k _ => trivial, fun k _ => trivial⟩,
    solve_mpc_feasible_trajectories cEx 0 outOpt 0 0 (by decide) rfl rfl
      ⟨rfl, fun k _ => by simp, fun k _ => trivial, fun k _ => trivial,
        fun k _ => trivial, fun k _ => trivial⟩⟩
